import Mathlib

/-!
Verification of the G4LumaCam repository (files `src/lumacam/analysis.py` and
`src/lumacam/optics.py`) against its natural-language specification.

The Python code is shallowly embedded: machine floats are modelled as
rationals (or reals where a square root is computed), a float `NaN` is
modelled as `none` in an `Option`, raised-and-caught Python exceptions are
modelled with `Except`, and the subprocess pipeline of `Analysis.process_data`
is modelled as the list of external actions it performs, in order.
-/

namespace G4LumaCam

/-! ### `Lens.refocus` keyword mismatch in `Lens.zscan` (optics.py) -/

/-- The parameter names of `Lens.refocus` (optics.py line 443), `self` omitted:
`def refocus(self, opm=None, zscan=0, zfine=0, fnumber=None, save=False)`. -/
def refocusParamNames : List String := ["opm", "zscan", "zfine", "fnumber", "save"]

/-- The keyword-argument names that `Lens.zscan` passes to `self.refocus`
(optics.py line 928): `self.refocus(opm, zfocus=..., zfine=...)`; `opm` is positional. -/
def zscanRefocusKeywords : List String := ["zfocus", "zfine"]

/-- A Python call binds its keyword arguments without raising `TypeError`
exactly when every keyword names a declared parameter. -/
def pythonKeywordCallOk (params kwargs : List String) : Bool :=
  kwargs.all (fun k => params.contains k)

/-- One iteration of the `Lens.zscan` scan loop (optics.py lines 922-987) for a
scanned value `v`.  The call to `self.refocus` is attempted first; if it raises
(which a keyword mismatch makes it do before the body runs), the exception is
caught, `results[value] = float('inf')` is recorded and the iteration ends
without tracing any rays.  Only on a successful refocus are rays traced and a
standard deviation computed; that computation is a parameter `tracedStd` of the
embedding.  The returned pair is (recorded result, whether rays were traced). -/
def zscanStep (tracedStd : ℚ → WithTop ℚ) (v : ℚ) : WithTop ℚ × Bool :=
  if pythonKeywordCallOk refocusParamNames zscanRefocusKeywords then (tracedStd v, true)
  else (⊤, false)

/-- The `pd.Series` returned by `Lens.zscan`: one entry per scanned value. -/
def zscanSeries (tracedStd : ℚ → WithTop ℚ) (scanRange : List ℚ) : List (ℚ × WithTop ℚ) :=
  scanRange.map (fun v => (v, (zscanStep tracedStd v).1))

/-- Whether any iteration of the `Lens.zscan` loop reached the ray-tracing step. -/
def zscanAnyTrace (tracedStd : ℚ → WithTop ℚ) (scanRange : List ℚ) : Bool :=
  scanRange.any (fun v => (zscanStep tracedStd v).2)

/-! ### The `Analysis.process_data` pipeline as a trace of external actions -/

/-- The externally visible pipeline actions performed by `Analysis.process_data`
(analysis.py lines 540-585).  `convert f` is the in-memory unit conversion of
traced file `f` performed by `_process_single_file` (ns to s, mm to px; its
row-level content is `importRow?` below); `importPhotons f` is the
`empir_import_photons` subprocess on the converted file. -/
inductive PAction
  | convert (f : ℕ)
  | importPhotons (f : ℕ)
  | photon2event (f : ℕ)
  | binEvents
  | readBinned
  deriving DecidableEq

/-- Pipeline stage of an action: the import stage (conversion and
`empir_import_photons`), then clustering, then binning, then reading back. -/
def pipelineStage : PAction → ℕ
  | .convert _ => 0
  | .importPhotons _ => 0
  | .photon2event _ => 1
  | .binEvents => 2
  | .readBinned => 3

/-- Actions of `Analysis._process_single_file` on one traced-photon CSV
(analysis.py lines 340-372): convert the units, then run the import tool. -/
def processSingleFileTrace (f : ℕ) : List PAction :=
  [PAction.convert f, PAction.importPhotons f]

/-- Actions of `Analysis._run_import_photons` (analysis.py lines 378-394):
every traced file is converted and imported. -/
def runImportPhotonsTrace (tracedFiles : List ℕ) : List PAction :=
  tracedFiles.flatMap processSingleFileTrace

/-- Actions of `Analysis._run_photon2event` (analysis.py lines 397-440): the
clustering tool runs once per `.empirphot` file. -/
def runPhoton2eventTrace (empirphotFiles : List ℕ) : List PAction :=
  empirphotFiles.map PAction.photon2event

/-- Actions of `Analysis.process_data` (analysis.py lines 499-585), in the
order the method performs them: all imports, then all clustering runs, then
one event-binning run, then reading the binned histogram back (the dataframe
it returns). -/
def processDataTrace (tracedFiles empirphotFiles : List ℕ) : List PAction :=
  runImportPhotonsTrace tracedFiles ++ runPhoton2eventTrace empirphotFiles ++
    [PAction.binEvents] ++ [PAction.readBinned]

/-! ### `Analysis.__init__` validation of the EMPIR directory -/

/-- The five required EMPIR files checked by `Analysis.__init__`
(analysis.py lines 324-330), as (attribute name, file name) pairs, in order. -/
def requiredFiles : List (String × String) :=
  [("empir_import_photons", "empir_import_photons"),
   ("empir_bin_photons", "empir_bin_photons"),
   ("empir_bin_events", "empir_bin_events"),
   ("process_photon2event", "process_photon2event.sh"),
   ("empir_export_events", "empir_export_events")]

/-- The loop of `Analysis.__init__` over `required_files` (analysis.py lines
332-338): for each entry the path `empir_dirpath / filename` must exist, else
`FileNotFoundError` is raised; existing paths are collected into
`self.executables` in order. -/
def collectExecutables (pathExists : String → Bool) (empirDir : String) :
    List (String × String) → Except String (List (String × String))
  | [] => Except.ok []
  | (attr, fn) :: rest =>
    let p := empirDir ++ "/" ++ fn
    if pathExists p then
      match collectExecutables pathExists empirDir rest with
      | Except.ok r => Except.ok ((attr, p) :: r)
      | Except.error e => Except.error e
    else Except.error (fn ++ " not found in " ++ empirDir)

/-- The EMPIR validation part of `Analysis.__init__` (analysis.py lines
320-338): raise if the directory does not exist, then check the five files. -/
def analysisValidateEmpir (pathExists : String → Bool) (empirDir : String) :
    Except String (List (String × String)) :=
  if pathExists empirDir then collectExecutables pathExists empirDir requiredFiles
  else Except.error (empirDir ++ " does not exist.")

/-- Whether an `Except` value is a normal return. -/
def isOkE : Except ε α → Bool
  | Except.ok _ => true
  | Except.error _ => false

/-! ### Catch-and-log failure handling -/

/-- The value a Python `try` body produced, or `none` if it raised; the raised
exception is swallowed by the `except` handler. -/
def exceptToOption : Except ε α → Option α
  | Except.ok a => some a
  | Except.error _ => none

/-- The exception a Python `try` body raised, if any (what the handler logs). -/
def exceptToError : Except ε α → Option ε
  | Except.ok _ => none
  | Except.error e => some e

/-- A batch loop whose body is wrapped in `try ... except ...: log; continue`,
as in `Analysis._run_import_photons` over traced files (via
`_process_single_file`, analysis.py lines 344-376) and in
`Analysis.process_data_event_by_event` over neutron groups (analysis.py lines
779-865): each item is processed independently, a failed item contributes no
result but is logged, and the loop always reaches the items after it. -/
def runBatchCaught (f : ι → Except ε α) : List ι → List (Option α) × List ε
  | [] => ([], [])
  | i :: rest =>
    let r := runBatchCaught f rest
    match f i with
    | Except.ok a => (some a :: r.1, r.2)
    | Except.error e => (none :: r.1, e :: r.2)

/-- `Lens._process_ray_chunk` (optics.py lines 779-828): the whole body is in a
`try`; on any exception it returns `[None] * len(chunk)`. -/
def processRayChunkCaught (traceChunk : List ρ → Except ε (List α)) (chunk : List ρ) :
    List (Option α) :=
  match traceChunk chunk with
  | Except.ok rs => rs.map some
  | Except.error _ => List.replicate chunk.length none

/-! ### Rows written to `ImportedPhotons/imported_*.csv` -/

/-- One row of a traced-photon table: final position (`x2`, `y2`) in mm and
time of arrival `toa2` in ns, any of which may be `NaN` (`none`). -/
structure SimTracedRow where
  x2 : Option ℚ
  y2 : Option ℚ
  toa2 : Option ℚ
  deriving DecidableEq

/-- One row written to an `ImportedPhotons/imported_*.csv` file. -/
structure ImportedPhotonRow where
  x_px : ℚ
  y_px : ℚ
  t_s : ℚ
  t_relToExtTrigger_s : ℚ
  deriving DecidableEq

/-- The row-level transformation of `Analysis._process_single_file`
(analysis.py lines 351-358) and of the per-event preparation in
`Analysis.process_data_event_by_event` (lines 786-793): rows with a `NaN`
field are dropped (`dropna`), `toa2` is scaled from ns to s, the pixel
coordinates are `(x2 + 10) / 10 * 128` and `(y2 + 10) / 10 * 128`,
`t_relToExtTrigger [s]` is a copy of `t [s]`, and rows with `t` outside
`[0, 1)` are dropped. -/
def importRow? (r : SimTracedRow) : Option ImportedPhotonRow :=
  match r.x2, r.y2, r.toa2 with
  | some x2, some y2, some toa2 =>
    let t := toa2 * (1 / 1000000000)
    if 0 ≤ t ∧ t < 1 then
      some ⟨(x2 + 10) / 10 * 128, (y2 + 10) / 10 * 128, t, t⟩
    else none
  | _, _, _ => none

/-- The full table written to `imported_*.csv`: the transformed surviving rows,
sorted by `t [s]` (`df.sort_values("t [s]")`). -/
def prepareImported (rows : List SimTracedRow) : List ImportedPhotonRow :=
  List.insertionSort (fun a b => a.t_s ≤ b.t_s) (rows.filterMap importRow?)

/-! ### `Lens.trace_rays` result assembly (optics.py lines 601-777) -/

/-- The final position of a successfully traced ray (`ray[0]` of the entry
returned by `trace_list_of_rays`). -/
structure TraceHit where
  x2 : ℚ
  y2 : ℚ
  z2 : ℚ
  deriving DecidableEq

/-- One row of the `result_df` built by `Lens.trace_rays`. -/
structure ResultRow where
  rowIndex : ℕ
  x2 : Option ℚ
  y2 : Option ℚ
  z2 : Option ℚ
  deriving DecidableEq

/-- Helper for `chunkList`, structurally recursive on a fuel bounded by the
list length (each step consumes at least one element since `cs > 0`). -/
def chunkListAux (cs : ℕ) : ℕ → List α → List (List α)
  | _, [] => []
  | 0, _ :: _ => []
  | fuel + 1, a :: t => (a :: t).take cs :: chunkListAux cs fuel ((a :: t).drop cs)

/-- Splitting a list into consecutive chunks of size `cs`
(the `range(0, len(rays), chunk_size)` loop of optics.py lines 647-652). -/
def chunkList (cs : ℕ) (l : List α) : List (List α) :=
  chunkListAux cs l.length l

/-- Normalisation of one chunk result (optics.py lines 680-688): a `None`
chunk result (a failed chunk) becomes a list of `None`s of the chunk's
length; a result of the wrong length is padded with `None` or truncated. -/
def normalizeChunk (res : Option (List (Option TraceHit))) (idxs : List ℕ) :
    List (Option TraceHit) :=
  match res with
  | none => List.replicate idxs.length none
  | some r =>
    if r.length < idxs.length then r ++ List.replicate (idxs.length - r.length) none
    else r.take idxs.length

/-- The `results_with_indices` list (optics.py lines 671-690): each chunk's
normalised entries zipped with that chunk's original row indices, concatenated
over all chunks in the order `pool.imap` yields them. -/
def resultsWithIndices (n cs : ℕ) (chunkResults : List (Option (List (Option TraceHit)))) :
    List (Option TraceHit × ℕ) :=
  (chunkResults.zip (chunkList cs (List.range n))).flatMap
    (fun p => (normalizeChunk p.1 p.2).zip p.2)

/-- `results_with_indices.sort(key=lambda x: x[1])` (optics.py line 701):
Python's stable sort on the row index. -/
def sortByRowIndex (rs : List (Option TraceHit × ℕ)) : List (Option TraceHit × ℕ) :=
  List.insertionSort (fun a b => a.2 ≤ b.2) rs

/-- The count-mismatch repair (optics.py lines 705-714): if entries are
missing, `(None, idx)` pairs for the missing indices are appended and the list
is re-sorted; if there are too many, the list is truncated to `n`.  (The
missing indices come from a Python set difference; they are enumerated here in
increasing order, which the subsequent sort makes irrelevant.) -/
def fixupResults (n : ℕ) (rs : List (Option TraceHit × ℕ)) : List (Option TraceHit × ℕ) :=
  if rs.length < n then
    sortByRowIndex (rs ++ ((List.range n).filter
      (fun i => ¬ (rs.map (fun p => p.2)).contains i)).map (fun i => ((none : Option TraceHit), i)))
  else rs.take n

/-- The output row built for input row `i` with trace entry `e`
(optics.py lines 716-736): a `None` entry yields `NaN` in `x2`, `y2`, `z2`. -/
def rowOfEntry (i : ℕ) (e : Option TraceHit) : ResultRow :=
  match e with
  | none => ⟨i, none, none, none⟩
  | some h => ⟨i, some h.x2, some h.y2, some h.z2⟩

/-- Building the `processed_results` rows (optics.py lines 716-736). -/
def processedResults (rs : List (Option TraceHit × ℕ)) : List ResultRow :=
  rs.map (fun p => rowOfEntry p.2 p.1)

/-- Assembly of the final `result_df` of `Lens.trace_rays` from the
(entry, row index) pairs in whatever order they were collected
(optics.py lines 701-739): sort by index, repair the count, build rows,
sort rows by `_row_index`. -/
def traceAssembleFrom (n : ℕ) (rs : List (Option TraceHit × ℕ)) : List ResultRow :=
  List.insertionSort (fun a b => a.rowIndex ≤ b.rowIndex)
    (processedResults (fixupResults n (sortByRowIndex rs)))

/-- The final `result_df` of `Lens.trace_rays` for one input file of `n` rows
(optics.py lines 701-739). -/
def traceAssemble (n cs : ℕ) (chunkResults : List (Option (List (Option TraceHit)))) :
    List ResultRow :=
  traceAssembleFrom n (resultsWithIndices n cs chunkResults)

/-- The effective per-row trace entry: entry `i` of the concatenation of all
normalised chunk results, aligned with input row `i`. -/
def flatEntries (n cs : ℕ) (chunkResults : List (Option (List (Option TraceHit)))) :
    List (Option TraceHit) :=
  (chunkResults.zip (chunkList cs (List.range n))).flatMap
    (fun p => normalizeChunk p.1 p.2)

instance : Inhabited ResultRow := ⟨⟨0, none, none, none⟩⟩

/-! ### `Lens.refocus` and its frame effect (optics.py lines 443-532) -/

/-- The part of a rayoptics `OpticalModel` that `Lens.refocus` reads or
writes: the gap thicknesses `sm.gaps[i].thi` and the pupil value. -/
structure OpticalModelV where
  gaps : List ℚ
  pupilValue : ℚ
  deriving DecidableEq

/-- `sm.gaps[i].thi = v`. -/
def setGap (m : OpticalModelV) (i : ℕ) (v : ℚ) : OpticalModelV :=
  { m with gaps := m.gaps.set i v }

/-- The per-kind gap adjustments of `Lens.refocus` applied to a model value
(optics.py lines 464-522), returning `Except.error` where the Python code
raises `ValueError` (or would raise a `TypeError` adding `None` to a float). -/
def refocusCompute (kind : String) (defaultFocusGaps : List (ℕ × Option ℚ))
    (focusGaps : Option (List (ℕ × ℚ))) (distFromObj : ℚ)
    (m : OpticalModelV) (zscan zfine : ℚ) (fnumber : Option ℚ) :
    Except String OpticalModelV := do
  let m1 ←
    if kind = "nikkor_58mm" then
      match defaultFocusGaps with
      | [] => Except.error ("Default focus gaps not set for nikkor_58mm")
      | (gi, dthi) :: _ =>
        if m.gaps.length ≤ gi then Except.error ("Invalid gap index for nikkor_58mm lens")
        else if zfine ≠ 0 then
          match dthi with
          | some d => Except.ok (setGap m gi (d + zfine))
          | none => Except.error ("unsupported operand type")
        else Except.ok m
    else if kind = "microscope" then
      match defaultFocusGaps with
      | [(g24, d24), (g31, d31)] =>
        if zfine ≠ 0 then
          if m.gaps.length ≤ g24 then Except.error ("Invalid gap index for microscope lens")
          else
            match d24 with
            | none => Except.error ("Default thickness not set")
            | some t24 =>
              let ma := setGap m g24 (t24 + zfine)
              if ma.gaps.length ≤ g31 then Except.error ("Invalid gap index for microscope lens")
              else
                match d31 with
                | none => Except.error ("Default thickness not set")
                | some t31 => Except.ok (setGap ma g31 (t31 - zfine))
        else Except.ok m
      | _ => Except.error ("Default focus gaps not set correctly for microscope")
    else if kind = "zmx_file" then
      if zfine ≠ 0 then
        match focusGaps with
        | some fgs =>
          fgs.foldlM (fun mc (p : ℕ × ℚ) =>
            if mc.gaps.length ≤ p.1 then Except.error ("Invalid gap index for zmx_file lens")
            else Except.ok (setGap mc p.1 (mc.gaps.getD p.1 0 + zfine * p.2))) m
        | none => Except.ok m
      else Except.ok m
    else Except.error ("Unsupported lens kind: " ++ kind)
  let m2 := setGap m1 0 (distFromObj + zscan)
  let m3 :=
    match fnumber with
    | some f => { m2 with pupilValue := f }
    | none => m2
  return m3

/-- A heap of `OpticalModel` objects addressed by references, with the next
fresh reference; Python object identity is a reference into this heap. -/
structure OptHeap where
  store : ℕ → OpticalModelV
  next : ℕ

/-- The `Lens` attributes that `Lens.refocus` can read or write. -/
structure LensState where
  kind : String
  distFromObj : ℚ
  defaultFocusGaps : List (ℕ × Option ℚ)
  focusGaps : Option (List (ℕ × ℚ))
  opm0Ref : ℕ
  opmRef : ℕ
  deriving DecidableEq

/-- `Lens.refocus` with Python reference semantics (optics.py lines 443-532):
the source model (`self.opm0`, or the `opm` argument when given) is deep-copied
into a fresh heap cell, the copy is adjusted, `self.opm` is re-bound to the
copy, and the copy's reference is returned.  On an exception nothing observable
changes. -/
def refocusHeap (h : OptHeap) (L : LensState) (argRef : Option ℕ)
    (zscan zfine : ℚ) (fnumber : Option ℚ) :
    Except String (OptHeap × LensState × ℕ) :=
  match refocusCompute L.kind L.defaultFocusGaps L.focusGaps L.distFromObj
      (h.store (argRef.getD L.opm0Ref)) zscan zfine fnumber with
  | Except.error e => Except.error e
  | Except.ok m =>
    Except.ok (⟨fun r => if r = h.next then m else h.store r, h.next + 1⟩,
      { L with opmRef := h.next }, h.next)

/-! ### `merge_sim_and_recon_data` event/photon matching (analysis.py lines 904-1051)

The per-neutron-group matching loop works on float arrays that may contain
`NaN`; a float is modelled as `Option ℝ` with `none` for `NaN`, and the
`NaN`-sensitive `np.argmin` / `np.argsort` are reproduced below. -/

section Merge

open scoped Classical

/-- One simulation photon row of the neutron group being matched, as seen by
the loop at analysis.py lines 998-1000: traced arrival time `toa2` (ns) and
pixel position (`photon_px`, `photon_py`); `none` is `NaN`. -/
structure SimPhoton where
  toa2 : Option ℝ
  px : Option ℝ
  py : Option ℝ

instance : Inhabited SimPhoton := ⟨⟨none, none, none⟩⟩

/-- One reconstructed event row: `t [s]`, `x [px]`, `y [px]` and
`int(row['nPhotons [1]'])`. -/
structure ReconEvent where
  t : ℝ
  x : ℝ
  y : ℝ
  nPhotons : ℕ

/-- `time_diffs = np.abs(sim_times * 1e-9 - recon_time_s) * 1e9`
(analysis.py line 1002): absolute time difference in ns, `NaN` propagating. -/
noncomputable def timeDiffs (sims : List SimPhoton) (e : ReconEvent) : List (Option ℝ) :=
  sims.map (fun s => s.toa2.map (fun ts => |ts * (1 / 1000000000) - e.t| * 1000000000))

/-- `spatial_diffs = np.sqrt((sim_px - recon_x)**2 + (sim_py - recon_y)**2)`
(analysis.py line 1003), `NaN` propagating. -/
noncomputable def spatialDiffs (sims : List SimPhoton) (e : ReconEvent) : List (Option ℝ) :=
  sims.map (fun s =>
    match s.px, s.py with
    | some px, some py => some (Real.sqrt ((px - e.x) ^ 2 + (py - e.y) ^ 2))
    | _, _ => none)

/-- The degeneracy test of analysis.py line 1005:
`np.all(np.isnan(sim_px)) or np.all(np.isnan(sim_py)) or np.all(np.isnan(sim_times))`. -/
def allNanDegenerate (sims : List SimPhoton) : Bool :=
  sims.all (fun s => s.px.isNone) || sims.all (fun s => s.py.isNone) ||
    sims.all (fun s => s.toa2.isNone)

/-- `combined_diffs` (analysis.py lines 1005-1009): the normalized time
distance plus the normalized spatial distance, except that in the degenerate
all-`NaN` case only the normalized time distance is used. -/
noncomputable def combinedDiffs (timeNorm spatialNorm : ℝ) (sims : List SimPhoton)
    (e : ReconEvent) : List (Option ℝ) :=
  if allNanDegenerate sims then
    (timeDiffs sims e).map (Option.map (fun t => t / timeNorm))
  else
    List.zipWith (fun td sd =>
        match td, sd with
        | some a, some b => some (a / timeNorm + b / spatialNorm)
        | _, _ => (none : Option ℝ))
      (timeDiffs sims e) (spatialDiffs sims e)

/-- The `spatial_diffs` array actually used for recording: in the degenerate
case the code overwrites it with `[np.nan] * len(time_diffs)`
(analysis.py line 1007). -/
noncomputable def spatialDiffsEff (sims : List SimPhoton) (e : ReconEvent) : List (Option ℝ) :=
  if allNanDegenerate sims then List.replicate sims.length none
  else spatialDiffs sims e

/-- `np.argmin` on a float array: the index of the first `NaN` if one is
present (a `NaN` compares as the running minimum and stops the scan),
otherwise the first index attaining the minimum. -/
noncomputable def npArgmin : List (Option ℝ) → ℕ
  | [] => 0
  | none :: _ => 0
  | some _ :: [] => 0
  | some a :: y :: ys =>
    let j := npArgmin (y :: ys)
    match (y :: ys).getD j none with
    | none => j + 1
    | some b => if a ≤ b then 0 else j + 1

/-- The sort key of index `i` in a float array: `NaN` sorts after every
number (`np.argsort` places `NaN` at the end). -/
noncomputable def optKey (l : List (Option ℝ)) (i : ℕ) : WithTop ℝ :=
  match l.getD i none with
  | none => ⊤
  | some x => (x : WithTop ℝ)

/-- `np.argsort` on a float array: the indices `0, ..., len-1` sorted by
value, with `NaN` entries at the end. -/
noncomputable def npArgsort (l : List (Option ℝ)) : List ℕ :=
  List.insertionSort (fun i j => optKey l i ≤ optKey l j) (List.range l.length)

/-- `closest_indices = np.argsort(combined_diffs)[:n_photons]`
(analysis.py line 1024). -/
noncomputable def closestIndicesN (timeNorm spatialNorm : ℝ) (sims : List SimPhoton)
    (e : ReconEvent) : List ℕ :=
  (npArgsort (combinedDiffs timeNorm spatialNorm sims e)).take e.nPhotons

/-- `pandas.Series.mean()` with its default `skipna=True`: the mean of the
non-`NaN` entries. -/
noncomputable def nanMean (l : List (Option ℝ)) : ℝ :=
  (l.filterMap id).sum / ((l.filterMap id).length : ℝ)

/-- The `photon_px` values of the selected candidate rows
(`sim_group.iloc[closest_indices]['photon_px']`). -/
def selectedPx (sims : List SimPhoton) (sel : List ℕ) : List (Option ℝ) :=
  sel.map (fun i => (sims.getD i default).px)

/-- The `photon_py` values of the selected candidate rows. -/
def selectedPy (sims : List SimPhoton) (sel : List ℕ) : List (Option ℝ) :=
  sel.map (fun i => (sims.getD i default).py)

/-- `com_dist` (analysis.py lines 1028-1030): distance from the selected
photons' centre of mass to the reconstructed event position. -/
noncomputable def comDist (sims : List SimPhoton) (e : ReconEvent) (sel : List ℕ) : ℝ :=
  Real.sqrt ((nanMean (selectedPx sims sel) - e.x) ^ 2 +
    (nanMean (selectedPy sims sel) - e.y) ^ 2)

/-- The skip condition of analysis.py lines 1027-1032: the centre-of-mass
check runs only when the selected photons' `px` are not all `NaN` and their
`py` are not all `NaN`, and it skips the event when `com_dist > dSpace_px`. -/
noncomputable def skipEvent (dSpace : ℝ) (sims : List SimPhoton) (e : ReconEvent)
    (sel : List ℕ) : Prop :=
  ¬((selectedPx sims sel).all Option.isNone ∨ (selectedPy sims sel).all Option.isNone) ∧
    comDist sims e sel > dSpace

/-- What the matching records on a simulation row for one reconstructed event
(analysis.py lines 1016-1021 and 1033-1040): the event id (standing for the
copied reconstruction columns), `time_diff_ns` and `spatial_diff_px`. -/
structure EventAssign where
  event_id : ℕ
  time_diff_ns : Option ℝ
  spatial_diff_px : Option ℝ

/-- Writing one event's data to each selected row
(`merged_df.loc[sim_idx, ...] = ...`). -/
noncomputable def assignMany (st : List (Option EventAssign)) (eid : ℕ)
    (td sd : List (Option ℝ)) (sel : List ℕ) : List (Option EventAssign) :=
  sel.foldl (fun acc i => acc.set i (some ⟨eid, td.getD i none, sd.getD i none⟩)) st

/-- The body of the per-event loop of `merge_sim_and_recon_data`
(analysis.py lines 990-1040) for one reconstructed event `e` with assigned id
`eid`, acting on the group's current assignment state `st` (one slot per row
of `sim_group`).  The candidate arrays are recomputed from the whole group,
`nPhotons == 1` events take the `np.argmin` candidate, others take the
`n` first `np.argsort` indices subject to the centre-of-mass skip. -/
noncomputable def processReconEvent (timeNorm spatialNorm dSpace : ℝ)
    (sims : List SimPhoton) (st : List (Option EventAssign)) (e : ReconEvent)
    (eid : ℕ) : List (Option EventAssign) :=
  let td := timeDiffs sims e
  let sd := spatialDiffsEff sims e
  let cd := combinedDiffs timeNorm spatialNorm sims e
  if e.nPhotons = 1 then
    if 0 < sims.length then assignMany st eid td sd [npArgmin cd] else st
  else
    if e.nPhotons ≤ sims.length then
      let sel := (npArgsort cd).take e.nPhotons
      if skipEvent dSpace sims e sel then st
      else assignMany st eid td sd sel
    else st

/-- The set of group-row indices that `processReconEvent` writes for one
reconstructed event: determined by the group and the event alone (the current
assignment state plays no role in candidate selection). -/
noncomputable def writtenIndices (timeNorm spatialNorm dSpace : ℝ)
    (sims : List SimPhoton) (e : ReconEvent) : List ℕ :=
  let cd := combinedDiffs timeNorm spatialNorm sims e
  if e.nPhotons = 1 then
    if 0 < sims.length then [npArgmin cd] else []
  else if e.nPhotons ≤ sims.length then
    let sel := (npArgsort cd).take e.nPhotons
    if skipEvent dSpace sims e sel then [] else sel
  else []

/-- `recon_group.sort_values('t [s]')` (analysis.py line 986). -/
noncomputable def sortReconByTime (events : List ReconEvent) : List ReconEvent :=
  List.insertionSort (fun a b => a.t ≤ b.t) events

/-- The whole matching loop for one neutron group (analysis.py lines
985-1040): events sorted by time get `event_id = index + 1` and are processed
in order against an initially unassigned group. -/
noncomputable def matchNeutronGroup (timeNorm spatialNorm dSpace : ℝ)
    (sims : List SimPhoton) (events : List ReconEvent) : List (Option EventAssign) :=
  ((sortReconByTime events).enum).foldl
    (fun st ke => processReconEvent timeNorm spatialNorm dSpace sims st ke.2 (ke.1 + 1))
    (List.replicate sims.length none)

end Merge

/-! ## Theorems -/

/-- C8: `Lens.zscan` passes a `zfocus` keyword that `Lens.refocus` does not
declare, so every refocus call raises `TypeError`; the exception is caught and
the scanned value is recorded as infinity: for every scan range the returned
series maps each scanned value to infinity and no rays are ever traced. -/
theorem C8_zscan_keyword_mismatch (tracedStd : ℚ → WithTop ℚ) (scanRange : List ℚ) :
    pythonKeywordCallOk refocusParamNames zscanRefocusKeywords = false ∧
    zscanSeries tracedStd scanRange = scanRange.map (fun v => (v, ⊤)) ∧
    zscanAnyTrace tracedStd scanRange = false := by
  have h : pythonKeywordCallOk refocusParamNames zscanRefocusKeywords = false := by decide
  refine ⟨h, ?_, ?_⟩
  · simp [zscanSeries, zscanStep, h]
  · simp [zscanAnyTrace, zscanStep, h]

theorem stage_zero_of_mem_import (tf : List ℕ) :
    ∀ a ∈ runImportPhotonsTrace tf, pipelineStage a = 0 := by
  intro a ha
  simp only [runImportPhotonsTrace, processSingleFileTrace, List.mem_flatMap,
    List.mem_cons, List.mem_singleton, List.not_mem_nil, or_false] at ha
  obtain ⟨f, -, hf⟩ := ha
  rcases hf with h | h
  · subst h; rfl
  · subst h; rfl

theorem stage_one_of_mem_p2e (pf : List ℕ) :
    ∀ a ∈ runPhoton2eventTrace pf, pipelineStage a = 1 := by
  intro a ha
  simp only [runPhoton2eventTrace, List.mem_map] at ha
  obtain ⟨f, -, hf⟩ := ha
  subst hf; rfl

theorem pairwise_of_const_stage (l : List PAction) (c : ℕ)
    (h : ∀ a ∈ l, pipelineStage a = c) :
    l.Pairwise (fun a b => pipelineStage a ≤ pipelineStage b) := by
  induction l with
  | nil => exact List.Pairwise.nil
  | cons a t ih =>
    refine List.Pairwise.cons ?_ (ih (fun b hb => h b (List.mem_cons_of_mem a hb)))
    intro b hb
    rw [h a (List.mem_cons_self a t), h b (List.mem_cons_of_mem a hb)]

theorem flatMap_infix {α β : Type} (g : α → List β) (l : List α) (a : α) (ha : a ∈ l) :
    g a <:+: l.flatMap g := by
  induction l with
  | nil => cases ha
  | cons x t ih =>
    rcases List.mem_cons.mp ha with h | h
    · subst h
      exact ⟨[], t.flatMap g, by simp [List.flatMap_cons]⟩
    · obtain ⟨s, u, hsu⟩ := ih h
      exact ⟨g x ++ s, u, by simp [List.flatMap_cons, ← hsu]⟩

/-- C5: `Analysis.process_data` performs the pipeline stages in the stated
order: the per-file unit conversion immediately followed by the import of that
file, all imports before any `photon2event` clustering run, all clustering
before the single event-binning run, and the binned histogram is read back
last (its dataframe is what the method returns). -/
theorem C5_pipeline_order (tracedFiles empirphotFiles : List ℕ) :
    List.Pairwise (fun a b => pipelineStage a ≤ pipelineStage b)
      (processDataTrace tracedFiles empirphotFiles) ∧
    (∀ f ∈ tracedFiles,
      [PAction.convert f, PAction.importPhotons f] <:+:
        processDataTrace tracedFiles empirphotFiles) ∧
    (processDataTrace tracedFiles empirphotFiles).getLast? = some PAction.readBinned := by
  refine ⟨?_, ?_, ?_⟩
  · unfold processDataTrace
    rw [List.append_assoc, List.append_assoc]
    rw [List.pairwise_append]
    refine ⟨pairwise_of_const_stage _ 0 (stage_zero_of_mem_import tracedFiles), ?_, ?_⟩
    · rw [List.pairwise_append]
      refine ⟨pairwise_of_const_stage _ 1 (stage_one_of_mem_p2e empirphotFiles), ?_, ?_⟩
      · rw [List.pairwise_append]
        refine ⟨List.pairwise_singleton _ _, List.pairwise_singleton _ _, ?_⟩
        intro a ha b hb
        simp only [List.mem_singleton] at ha hb
        subst ha; subst hb; exact Nat.le_succ 2
      · intro a ha b hb
        rw [stage_one_of_mem_p2e empirphotFiles a ha]
        rcases List.mem_append.mp hb with h | h <;>
          simp only [List.mem_singleton] at h <;> subst h
        · decide
        · decide
    · intro a ha b hb
      rw [stage_zero_of_mem_import tracedFiles a ha]
      exact Nat.zero_le _
  · intro f hf
    have h1 : processSingleFileTrace f <:+: runImportPhotonsTrace tracedFiles :=
      flatMap_infix processSingleFileTrace tracedFiles f hf
    obtain ⟨s, u, hsu⟩ := h1
    exact ⟨s, u ++ (runPhoton2eventTrace empirphotFiles ++
      ([PAction.binEvents] ++ [PAction.readBinned])), by
        simp only [processDataTrace, processSingleFileTrace] at hsu ⊢
        rw [List.append_assoc, List.append_assoc, ← hsu]
        simp [List.append_assoc]⟩
  · unfold processDataTrace
    rw [List.getLast?_concat]

/-- Witness for C5 at a concrete run with one traced file and one
`.empirphot` file. -/
theorem C5_pipeline_order_witness :
    [PAction.convert 0, PAction.importPhotons 0] <:+: processDataTrace [0] [0] :=
  (C5_pipeline_order [0] [0]).2.1 0 (List.mem_singleton.mpr rfl)

theorem collectExecutables_ok (pathExists : String → Bool) (empirDir : String) :
    ∀ (fl : List (String × String)) (r : List (String × String)),
      collectExecutables pathExists empirDir fl = Except.ok r →
      r = fl.map (fun p => (p.1, empirDir ++ "/" ++ p.2)) ∧
      ∀ p ∈ fl, pathExists (empirDir ++ "/" ++ p.2) = true := by
  intro fl
  induction fl with
  | nil =>
    intro r hr
    simp only [collectExecutables] at hr
    cases hr
    exact ⟨rfl, by intro p hp; cases hp⟩
  | cons q t ih =>
    intro r hr
    obtain ⟨attr, fn⟩ := q
    simp only [collectExecutables] at hr
    by_cases hq : pathExists (empirDir ++ "/" ++ fn) = true
    · rw [if_pos hq] at hr
      rcases ht : collectExecutables pathExists empirDir t with e | r2
      · rw [ht] at hr; cases hr
      · rw [ht] at hr
        cases hr
        obtain ⟨hmap, hall⟩ := ih r2 ht
        refine ⟨by simp [hmap], ?_⟩
        intro p hp
        rcases List.mem_cons.mp hp with h | h
        · subst h; exact hq
        · exact hall p h
    · rw [if_neg hq] at hr
      cases hr

theorem collectExecutables_missing (pathExists : String → Bool) (empirDir : String) :
    ∀ (fl : List (String × String)) (p : String × String), p ∈ fl →
      pathExists (empirDir ++ "/" ++ p.2) = false →
      isOkE (collectExecutables pathExists empirDir fl) = false := by
  intro fl
  induction fl with
  | nil => intro p hp; cases hp
  | cons q t ih =>
    intro p hp hmiss
    obtain ⟨attr, fn⟩ := q
    simp only [collectExecutables]
    rcases List.mem_cons.mp hp with h | h
    · subst h
      rw [if_neg (by simp [hmiss])]
      rfl
    · by_cases hq : pathExists (empirDir ++ "/" ++ fn) = true
      · rw [if_pos hq]
        have := ih p h hmiss
        rcases ht : collectExecutables pathExists empirDir t with e | r2
        · rfl
        · rw [ht] at this; cases this
      · rw [if_neg hq]; rfl

/-- C6: the EMPIR validation of `Analysis.__init__` raises `FileNotFoundError`
when the EMPIR directory is missing or any of the five required files is
absent from it, and when it returns normally every collected executable is a
path (one per required file, in order) that existed at construction time. -/
theorem C6_init_required_files (pathExists : String → Bool) (empirDir : String) :
    (∀ execs, analysisValidateEmpir pathExists empirDir = Except.ok execs →
      pathExists empirDir = true ∧
      execs = requiredFiles.map (fun p => (p.1, empirDir ++ "/" ++ p.2)) ∧
      ∀ e ∈ execs, pathExists e.2 = true) ∧
    (pathExists empirDir = false →
      isOkE (analysisValidateEmpir pathExists empirDir) = false) ∧
    (∀ p ∈ requiredFiles, pathExists (empirDir ++ "/" ++ p.2) = false →
      isOkE (analysisValidateEmpir pathExists empirDir) = false) := by
  refine ⟨?_, ?_, ?_⟩
  · intro execs hok
    unfold analysisValidateEmpir at hok
    by_cases hd : pathExists empirDir = true
    · rw [if_pos hd] at hok
      obtain ⟨hmap, hall⟩ := collectExecutables_ok pathExists empirDir requiredFiles execs hok
      refine ⟨hd, hmap, ?_⟩
      intro e he
      rw [hmap] at he
      simp only [List.mem_map] at he
      obtain ⟨p, hp, hpe⟩ := he
      rw [← hpe]
      exact hall p hp
    · rw [if_neg hd] at hok
      cases hok
  · intro hd
    unfold analysisValidateEmpir
    rw [if_neg (by simp [hd])]
    rfl
  · intro p hp hmiss
    unfold analysisValidateEmpir
    by_cases hd : pathExists empirDir = true
    · rw [if_pos hd]
      exact collectExecutables_missing pathExists empirDir requiredFiles p hp hmiss
    · rw [if_neg hd]; rfl

/-- Witness for C6 at a concrete filesystem where everything exists. -/
theorem C6_init_required_files_witness :
    analysisValidateEmpir (fun _ => true) ("empir") =
      Except.ok (requiredFiles.map (fun p => (p.1, "empir" ++ "/" ++ p.2))) ∧
    (fun _ : String => true) ("empir" ++ "/" ++ "empir_import_photons") = true := by
  have hok : analysisValidateEmpir (fun _ => true) ("empir") =
      Except.ok (requiredFiles.map (fun p => (p.1, "empir" ++ "/" ++ p.2))) := rfl
  refine ⟨hok, ?_⟩
  refine ((C6_init_required_files (fun _ => true) ("empir")).1 _ hok).2.2
    ("empir_import_photons", "empir" ++ "/" ++ "empir_import_photons") ?_
  rw [((C6_init_required_files (fun _ => true) ("empir")).1 _ hok).2.1]
  simp [requiredFiles]

/-- C7: failure recovery is catch-and-log only and per-item: a batch loop
whose body is a `try`/`except` processes every item regardless of earlier
failures, producing the per-item outcomes and the log of caught exceptions,
and `Lens._process_ray_chunk` maps a failing chunk to a list of `None`
results of the chunk's length. -/
theorem C7_catch_and_log {ι ε α ρ γ : Type} (f : ι → Except ε α) (items : List ι) :
    (runBatchCaught f items).1 = items.map (fun i => exceptToOption (f i)) ∧
    (runBatchCaught f items).2 = items.filterMap (fun i => exceptToError (f i)) ∧
    (∀ (traceChunk : List ρ → Except ε (List γ)) (chunk : List ρ) (e : ε),
      traceChunk chunk = Except.error e →
      processRayChunkCaught traceChunk chunk = List.replicate chunk.length none) := by
  refine ⟨?_, ?_, ?_⟩
  · induction items with
    | nil => rfl
    | cons i t ih =>
      simp only [runBatchCaught, List.map_cons]
      rcases hf : f i with e | a
      · simp [exceptToOption, hf, ih]
      · simp [exceptToOption, hf, ih]
  · induction items with
    | nil => rfl
    | cons i t ih =>
      simp only [runBatchCaught, List.filterMap_cons]
      rcases hf : f i with e | a
      · simp [exceptToError, hf, ih]
      · simp [exceptToError, hf, ih]
  · intro traceChunk chunk e he
    simp [processRayChunkCaught, he]

/-- Witness for C7 at a concrete batch with one failing item and a failing
chunk. -/
theorem C7_catch_and_log_witness :
    (runBatchCaught (fun n : ℕ => if n = 0 then (Except.error 7 : Except ℕ ℕ)
      else Except.ok n) [0, 2]).1 = [none, some 2] ∧
    processRayChunkCaught (fun _ : List ℕ => (Except.error 7 : Except ℕ (List ℕ)))
      [5, 6] = [none, none] := by
  have h := C7_catch_and_log (ρ := ℕ) (γ := ℕ)
    (fun n : ℕ => if n = 0 then (Except.error 7 : Except ℕ ℕ) else Except.ok n) [0, 2]
  refine ⟨h.1.trans (by decide), (h.2.2 _ [5, 6] 7 rfl).trans (by decide)⟩

theorem importRow?_some_props (s : SimTracedRow) (r : ImportedPhotonRow)
    (h : importRow? s = some r) :
    (0 ≤ r.t_s ∧ r.t_s < 1) ∧ r.t_relToExtTrigger_s = r.t_s := by
  obtain ⟨x2, y2, toa2⟩ := s
  match x2, y2, toa2 with
  | some a, some b, some c =>
    simp only [importRow?] at h
    split at h
    · cases h
      rename_i hrange
      exact ⟨hrange, rfl⟩
    · cases h
  | none, _, _ => simp [importRow?] at h
  | some _, none, _ => simp [importRow?] at h
  | some _, some _, none => simp [importRow?] at h

/-- C9: every row prepared for an `ImportedPhotons/imported_*.csv` file has
`t [s]` in `[0, 1)` (out-of-range rows are dropped), equal
`t_relToExtTrigger [s]` and `t [s]`, the table is sorted by nondecreasing
`t [s]`, its rows are exactly the transforms of the input rows that survive
`dropna` and the range filter, and on a surviving row the pixel coordinates
and time are `px = (x2 + 10) / 10 * 128`, `py = (y2 + 10) / 10 * 128`,
`t = toa2 * 1e-9`. -/
theorem C9_imported_rows (rows : List SimTracedRow) :
    (∀ r ∈ prepareImported rows, (0 ≤ r.t_s ∧ r.t_s < 1) ∧
      r.t_relToExtTrigger_s = r.t_s) ∧
    List.Pairwise (fun a b => a.t_s ≤ b.t_s) (prepareImported rows) ∧
    (prepareImported rows).Perm (rows.filterMap importRow?) ∧
    (∀ x2 y2 toa2 : ℚ, 0 ≤ toa2 * (1 / 1000000000) → toa2 * (1 / 1000000000) < 1 →
      importRow? ⟨some x2, some y2, some toa2⟩ =
        some ⟨(x2 + 10) / 10 * 128, (y2 + 10) / 10 * 128,
          toa2 * (1 / 1000000000), toa2 * (1 / 1000000000)⟩) := by
  refine ⟨?_, ?_, ?_, ?_⟩
  · intro r hr
    rw [prepareImported, List.mem_insertionSort] at hr
    obtain ⟨s, -, hs⟩ := List.mem_filterMap.mp hr
    exact importRow?_some_props s r hs
  · haveI : IsTotal ImportedPhotonRow (fun a b => a.t_s ≤ b.t_s) :=
      ⟨fun a b => le_total a.t_s b.t_s⟩
    haveI : IsTrans ImportedPhotonRow (fun a b => a.t_s ≤ b.t_s) :=
      ⟨fun _ _ _ hab hbc => le_trans hab hbc⟩
    exact List.sorted_insertionSort _ _
  · exact List.perm_insertionSort _ _
  · intro x2 y2 toa2 h0 h1
    simp only [importRow?]
    rw [if_pos ⟨h0, h1⟩]

/-- Witness for C9 at a concrete traced row with `toa2 = 0.5 s`. -/
theorem C9_imported_rows_witness :
    importRow? ⟨some 10, some (-10), some 500000000⟩ =
      some ⟨256, 0, 1 / 2, 1 / 2⟩ := by
  have h := (C9_imported_rows []).2.2.2 10 (-10) 500000000 (by norm_num) (by norm_num)
  rw [h]
  norm_num

theorem chunkListAux_flatten {α : Type} (cs : ℕ) (hcs : 0 < cs) :
    ∀ (fuel : ℕ) (l : List α), l.length ≤ fuel → (chunkListAux cs fuel l).flatten = l := by
  intro fuel
  induction fuel with
  | zero =>
    intro l hl
    cases l with
    | nil => rfl
    | cons a t => simp at hl
  | succ fuel ih =>
    intro l hl
    cases l with
    | nil => rfl
    | cons a t =>
      show ((a :: t).take cs :: chunkListAux cs fuel ((a :: t).drop cs)).flatten = a :: t
      rw [List.flatten_cons]
      rw [ih ((a :: t).drop cs) (by simp only [List.length_drop, List.length_cons] at hl ⊢; omega)]
      exact List.take_append_drop cs (a :: t)

theorem chunkList_flatten {α : Type} (cs : ℕ) (hcs : 0 < cs) (l : List α) :
    (chunkList cs l).flatten = l :=
  chunkListAux_flatten cs hcs l.length l le_rfl

theorem normalizeChunk_length (res : Option (List (Option TraceHit))) (idxs : List ℕ) :
    (normalizeChunk res idxs).length = idxs.length := by
  cases res with
  | none => simp [normalizeChunk]
  | some r =>
    simp only [normalizeChunk]
    split
    · rename_i hlt
      simp only [List.length_append, List.length_replicate]
      omega
    · rename_i hge
      simp only [List.length_take]
      omega

theorem zip_flatMap_normalize :
    ∀ (crs : List (Option (List (Option TraceHit)))) (chs : List (List ℕ)),
      crs.length = chs.length →
      (crs.zip chs).flatMap (fun p => (normalizeChunk p.1 p.2).zip p.2) =
        ((crs.zip chs).flatMap (fun p => normalizeChunk p.1 p.2)).zip chs.flatten := by
  intro crs
  induction crs with
  | nil =>
    intro chs h
    cases chs with
    | nil => simp
    | cons ch cht => simp at h
  | cons c ct ih =>
    intro chs h
    cases chs with
    | nil => simp at h
    | cons ch cht =>
      simp only [List.zip_cons_cons, List.flatMap_cons, List.flatten_cons]
      rw [ih cht (by simpa using h)]
      rw [List.zip_append (normalizeChunk_length c ch)]

theorem flatMap_normalize_length :
    ∀ (crs : List (Option (List (Option TraceHit)))) (chs : List (List ℕ)),
      crs.length = chs.length →
      ((crs.zip chs).flatMap (fun p => normalizeChunk p.1 p.2)).length = chs.flatten.length := by
  intro crs
  induction crs with
  | nil =>
    intro chs h
    cases chs with
    | nil => simp
    | cons ch cht => simp at h
  | cons c ct ih =>
    intro chs h
    cases chs with
    | nil => simp at h
    | cons ch cht =>
      simp only [List.zip_cons_cons, List.flatMap_cons, List.flatten_cons, List.length_append]
      rw [ih cht (by simpa using h), normalizeChunk_length c ch]

theorem flatEntries_length (n cs : ℕ) (crs : List (Option (List (Option TraceHit))))
    (hcs : 0 < cs) (hlen : crs.length = (chunkList cs (List.range n)).length) :
    (flatEntries n cs crs).length = n := by
  rw [flatEntries, flatMap_normalize_length crs _ hlen,
    chunkList_flatten cs hcs (List.range n), List.length_range]

theorem resultsWithIndices_eq_zip (n cs : ℕ) (crs : List (Option (List (Option TraceHit))))
    (hcs : 0 < cs) (hlen : crs.length = (chunkList cs (List.range n)).length) :
    resultsWithIndices n cs crs = (flatEntries n cs crs).zip (List.range n) := by
  rw [resultsWithIndices, flatEntries, zip_flatMap_normalize crs _ hlen,
    chunkList_flatten cs hcs (List.range n)]

theorem zip_range_sorted_le (l : List (Option TraceHit)) (n : ℕ) :
    (l.zip (List.range n)).Pairwise (fun a b => a.2 ≤ b.2) := by
  rw [List.pairwise_iff_getElem]
  intro i j hi hj hij
  have hi2 : i < l.length := by rw [List.length_zip, List.length_range] at hi; omega
  have hj2 : j < l.length := by rw [List.length_zip, List.length_range] at hj; omega
  have hi4 : i < (List.range n).length := by
    rw [List.length_zip, List.length_range] at hi
    rw [List.length_range]
    omega
  have hj4 : j < (List.range n).length := by
    rw [List.length_zip, List.length_range] at hj
    rw [List.length_range]
    omega
  have h1 : (l.zip (List.range n))[i] = (l[i], (List.range n)[i]) := List.getElem_zip
  have h2 : (l.zip (List.range n))[j] = (l[j], (List.range n)[j]) := List.getElem_zip
  rw [h1, h2, List.getElem_range, List.getElem_range]
  exact Nat.le_of_lt hij

theorem zip_range_snd_nodup (l : List (Option TraceHit)) (n : ℕ) (h : l.length = n) :
    ((l.zip (List.range n)).map Prod.snd).Nodup := by
  rw [List.map_snd_zip _ _ (by rw [h, List.length_range])]
  exact List.nodup_range n

theorem sorted_lt_of_sorted_le_nodup (l : List (Option TraceHit × ℕ))
    (hle : l.Pairwise (fun a b => a.2 ≤ b.2)) (hnd : (l.map Prod.snd).Nodup) :
    l.Pairwise (fun a b => a.2 < b.2) := by
  have hne : l.Pairwise (fun a b => a.2 ≠ b.2) := List.pairwise_map.mp hnd
  exact (hle.and hne).imp (fun h => lt_of_le_of_ne h.1 h.2)

theorem sortByRowIndex_sorted (rs : List (Option TraceHit × ℕ)) :
    (sortByRowIndex rs).Pairwise (fun a b => a.2 ≤ b.2) := by
  haveI : IsTotal (Option TraceHit × ℕ) (fun a b => a.2 ≤ b.2) :=
    ⟨fun a b => le_total a.2 b.2⟩
  haveI : IsTrans (Option TraceHit × ℕ) (fun a b => a.2 ≤ b.2) :=
    ⟨fun _ _ _ hab hbc => le_trans hab hbc⟩
  exact List.sorted_insertionSort _ rs

theorem sortByRowIndex_perm (rs : List (Option TraceHit × ℕ)) :
    (sortByRowIndex rs).Perm rs := List.perm_insertionSort _ rs

theorem sortByRowIndex_eq_of_perm (rs rs2 : List (Option TraceHit × ℕ))
    (hperm : rs.Perm rs2) (hnd : (rs2.map Prod.snd).Nodup) :
    sortByRowIndex rs = sortByRowIndex rs2 := by
  haveI : IsAntisymm (Option TraceHit × ℕ) (fun a b => a.2 < b.2) :=
    ⟨fun a b h1 h2 => absurd h2 (not_lt.mpr (le_of_lt h1))⟩
  have hp1 : (sortByRowIndex rs).Perm rs2 := (sortByRowIndex_perm rs).trans hperm
  have hp2 : (sortByRowIndex rs2).Perm rs2 := sortByRowIndex_perm rs2
  have hnd1 : ((sortByRowIndex rs).map Prod.snd).Nodup :=
    ((hp1.map Prod.snd).nodup_iff).mpr hnd
  have hnd2 : ((sortByRowIndex rs2).map Prod.snd).Nodup :=
    ((hp2.map Prod.snd).nodup_iff).mpr hnd
  exact List.eq_of_perm_of_sorted (hp1.trans hp2.symm)
    (sorted_lt_of_sorted_le_nodup _ (sortByRowIndex_sorted rs) hnd1)
    (sorted_lt_of_sorted_le_nodup _ (sortByRowIndex_sorted rs2) hnd2)

theorem rowOfEntry_rowIndex (i : ℕ) (e : Option TraceHit) : (rowOfEntry i e).rowIndex = i := by
  cases e <;> rfl

theorem traceAssembleFrom_canonical (n : ℕ) (l : List (Option TraceHit))
    (hl : l.length = n) (rs : List (Option TraceHit × ℕ))
    (hperm : rs.Perm (l.zip (List.range n))) :
    traceAssembleFrom n rs = (l.zip (List.range n)).map (fun p => rowOfEntry p.2 p.1) := by
  have hzlen : (l.zip (List.range n)).length = n := by
    rw [List.length_zip, hl, List.length_range, Nat.min_self]
  have hsort : sortByRowIndex rs = l.zip (List.range n) := by
    rw [sortByRowIndex_eq_of_perm rs _ hperm (zip_range_snd_nodup l n hl)]
    haveI : IsTotal (Option TraceHit × ℕ) (fun a b => a.2 ≤ b.2) :=
      ⟨fun a b => le_total a.2 b.2⟩
    haveI : IsTrans (Option TraceHit × ℕ) (fun a b => a.2 ≤ b.2) :=
      ⟨fun _ _ _ hab hbc => le_trans hab hbc⟩
    exact List.Sorted.insertionSort_eq (zip_range_sorted_le l n)
  rw [traceAssembleFrom, hsort]
  have hfix : fixupResults n (l.zip (List.range n)) = l.zip (List.range n) := by
    rw [fixupResults, if_neg (by rw [hzlen]; omega)]
    rw [show List.take n (l.zip (List.range n)) =
      List.take (l.zip (List.range n)).length (l.zip (List.range n)) from by rw [hzlen]]
    exact List.take_length _
  rw [hfix]
  have hrows : (processedResults (l.zip (List.range n))).Pairwise
      (fun a b => a.rowIndex ≤ b.rowIndex) := by
    rw [processedResults, List.pairwise_map]
    refine (zip_range_sorted_le l n).imp ?_
    intro a b hab
    rw [rowOfEntry_rowIndex, rowOfEntry_rowIndex]
    exact hab
  haveI : IsTotal ResultRow (fun a b => a.rowIndex ≤ b.rowIndex) :=
    ⟨fun a b => le_total a.rowIndex b.rowIndex⟩
  haveI : IsTrans ResultRow (fun a b => a.rowIndex ≤ b.rowIndex) :=
    ⟨fun _ _ _ hab hbc => le_trans hab hbc⟩
  exact List.Sorted.insertionSort_eq hrows

/-- C4: `Lens.trace_rays` produces exactly one output row per input row, in
the original input-file row order after the final sort on `_row_index`,
independently of the order in which the per-chunk results were collected; an
input row whose ray trace failed (a `None` entry) appears at its original
position with `NaN` in `x2`, `y2`, `z2`. -/
theorem C4_trace_rows_order (n cs : ℕ) (chunkResults : List (Option (List (Option TraceHit))))
    (hcs : 0 < cs) (hlen : chunkResults.length = (chunkList cs (List.range n)).length) :
    traceAssemble n cs chunkResults =
      ((flatEntries n cs chunkResults).zip (List.range n)).map
        (fun p => rowOfEntry p.2 p.1) ∧
    (traceAssemble n cs chunkResults).length = n ∧
    (∀ i, i < n → (traceAssemble n cs chunkResults).getD i default =
      rowOfEntry i ((flatEntries n cs chunkResults).getD i none)) ∧
    (∀ rs : List (Option TraceHit × ℕ), rs.Perm (resultsWithIndices n cs chunkResults) →
      traceAssembleFrom n rs = traceAssemble n cs chunkResults) := by
  have hfl : (flatEntries n cs chunkResults).length = n :=
    flatEntries_length n cs chunkResults hcs hlen
  have hri : resultsWithIndices n cs chunkResults =
      (flatEntries n cs chunkResults).zip (List.range n) :=
    resultsWithIndices_eq_zip n cs chunkResults hcs hlen
  have hmain : traceAssemble n cs chunkResults =
      ((flatEntries n cs chunkResults).zip (List.range n)).map
        (fun p => rowOfEntry p.2 p.1) := by
    rw [traceAssemble, hri]
    exact traceAssembleFrom_canonical n _ hfl _ (List.Perm.refl _)
  have hzlen : ((flatEntries n cs chunkResults).zip (List.range n)).length = n := by
    rw [List.length_zip, hfl, List.length_range, Nat.min_self]
  refine ⟨hmain, ?_, ?_, ?_⟩
  · rw [hmain, List.length_map, hzlen]
  · intro i hi
    rw [hmain]
    have hilen : i < (((flatEntries n cs chunkResults).zip (List.range n)).map
        (fun p => rowOfEntry p.2 p.1)).length := by
      rw [List.length_map, hzlen]; omega
    rw [List.getD_eq_getElem _ _ hilen, List.getElem_map, List.getElem_zip,
      List.getElem_range]
    congr 1
    rw [List.getD_eq_getElem _ _ (by omega : i < (flatEntries n cs chunkResults).length)]
  · intro rs hperm
    rw [hmain]
    exact traceAssembleFrom_canonical n _ hfl rs (by rw [← hri]; exact hperm)

/-- Witness for C4: three input rows in chunks of two, with the second chunk
failed and the second ray of the first chunk unreturned. -/
theorem C4_trace_rows_order_witness :
    0 < 2 ∧
    traceAssemble 3 2 [some [some ⟨1, 2, 3⟩, none], none] =
      [⟨0, some 1, some 2, some 3⟩, ⟨1, none, none, none⟩, ⟨2, none, none, none⟩] := by
  refine ⟨by norm_num, ?_⟩
  have h := (C4_trace_rows_order 3 2 [some [some ⟨1, 2, 3⟩, none], none]
    (by norm_num) (by decide)).1
  rw [h]
  decide

/-- C10: `Lens.refocus` never mutates its inputs: the baseline `self.opm0`
and the caller's `opm` argument are deep-copied before any gap adjustment, so
after a successful call every pre-existing heap object is unchanged
(in particular the baseline and the argument); the only `Lens` attribute that
changes is `self.opm`, re-bound to the freshly built model, whose reference is
also the return value. -/
theorem C10_refocus_frame (h : OptHeap) (L : LensState) (argRef : Option ℕ)
    (zscan zfine : ℚ) (fnumber : Option ℚ) (h2 : OptHeap) (L2 : LensState) (ret : ℕ)
    (hok : refocusHeap h L argRef zscan zfine fnumber = Except.ok (h2, L2, ret)) :
    (∀ r, r < h.next → h2.store r = h.store r) ∧
    L2.opm0Ref = L.opm0Ref ∧
    L2 = { L with opmRef := ret } ∧
    ret = h.next ∧
    h2.next = h.next + 1 ∧
    (L.opm0Ref < h.next → h2.store L.opm0Ref = h.store L.opm0Ref) ∧
    (∀ a, argRef = some a → a < h.next → h2.store a = h.store a) := by
  unfold refocusHeap at hok
  rcases hres : refocusCompute L.kind L.defaultFocusGaps L.focusGaps L.distFromObj
      (h.store (argRef.getD L.opm0Ref)) zscan zfine fnumber with e | m
  · rw [hres] at hok; cases hok
  · rw [hres] at hok
    cases hok
    have hstore : ∀ r, r < h.next →
        (fun r => if r = h.next then m else h.store r) r = h.store r := by
      intro r hr
      simp only [if_neg (Nat.ne_of_lt hr)]
    refine ⟨hstore, rfl, rfl, rfl, rfl, ?_, ?_⟩
    · intro hlt
      exact hstore L.opm0Ref hlt
    · intro a ha hlt
      exact hstore a hlt

/-- Witness for C10: a concrete successful refocus of a `zmx_file` lens with
`zfine = 0` on a two-cell heap; the pre-existing cell is untouched. -/
theorem C10_refocus_frame_witness :
    refocusHeap ⟨fun _ => ⟨[1, 2], 8⟩, 1⟩ ⟨"zmx_file", 10, [], none, 0, 0⟩ none 3 0 none =
      Except.ok (⟨fun r => if r = 1 then ⟨[13, 2], 8⟩ else ⟨[1, 2], 8⟩, 2⟩,
        ⟨"zmx_file", 10, [], none, 0, 1⟩, 1) ∧
    (⟨fun r => if r = 1 then ⟨[13, 2], 8⟩ else ⟨[1, 2], 8⟩, 2⟩ : OptHeap).store 0 =
      (⟨fun _ => ⟨[1, 2], 8⟩, 1⟩ : OptHeap).store 0 := by
  have hok : refocusHeap ⟨fun _ => ⟨[1, 2], 8⟩, 1⟩ ⟨"zmx_file", 10, [], none, 0, 0⟩
      none 3 0 none =
      Except.ok (⟨fun r => if r = 1 then ⟨[13, 2], 8⟩ else ⟨[1, 2], 8⟩, 2⟩,
        ⟨"zmx_file", 10, [], none, 0, 1⟩, 1) := by
    show Except.ok _ = _
    congr 1
    refine Prod.ext ?_ rfl
    show (⟨fun r => if r = 1 then setGap ⟨[1, 2], 8⟩ 0 (10 + 3) else ⟨[1, 2], 8⟩, 2⟩ : OptHeap) =
      ⟨fun r => if r = 1 then ⟨[13, 2], 8⟩ else ⟨[1, 2], 8⟩, 2⟩
    have hsg : setGap ⟨[1, 2], 8⟩ 0 (10 + 3) = (⟨[13, 2], 8⟩ : OpticalModelV) := by
      simp only [setGap]
      norm_num
    rw [hsg]
  exact ⟨hok, (C10_refocus_frame _ _ _ _ _ _ _ _ _ hok).1 0 (by norm_num)⟩

theorem timeDiffs_length (sims : List SimPhoton) (e : ReconEvent) :
    (timeDiffs sims e).length = sims.length := List.length_map _ _

theorem spatialDiffs_length (sims : List SimPhoton) (e : ReconEvent) :
    (spatialDiffs sims e).length = sims.length := List.length_map _ _

theorem spatialDiffsEff_length (sims : List SimPhoton) (e : ReconEvent) :
    (spatialDiffsEff sims e).length = sims.length := by
  rw [spatialDiffsEff]
  split
  · exact List.length_replicate _ _
  · exact spatialDiffs_length sims e

theorem combinedDiffs_length (timeNorm spatialNorm : ℝ) (sims : List SimPhoton)
    (e : ReconEvent) :
    (combinedDiffs timeNorm spatialNorm sims e).length = sims.length := by
  rw [combinedDiffs]
  split
  · rw [List.length_map, timeDiffs_length]
  · rw [List.length_zipWith, timeDiffs_length, spatialDiffs_length, Nat.min_self]

theorem optKey_cons_succ (x : Option ℝ) (xs : List (Option ℝ)) (k : ℕ) :
    optKey (x :: xs) (k + 1) = optKey xs k := rfl

theorem optKey_cons_zero_some (a : ℝ) (xs : List (Option ℝ)) :
    optKey (some a :: xs) 0 = (a : WithTop ℝ) := rfl

theorem getD_isSome_of_all (l : List (Option ℝ)) (h : ∀ c ∈ l, c.isSome) (k : ℕ)
    (hk : k < l.length) : (l.getD k none).isSome := by
  rw [List.getD_eq_getElem l none hk]
  exact h _ (List.getElem_mem hk)

theorem npArgmin_lt_length : ∀ l : List (Option ℝ), l ≠ [] → npArgmin l < l.length
  | [], h => absurd rfl h
  | none :: t, _ => by simp [npArgmin]
  | [some a], _ => by simp [npArgmin]
  | some a :: y :: ys, _ => by
    have ih := npArgmin_lt_length (y :: ys) (by simp)
    simp only [npArgmin, List.length_cons]
    split
    · simp only [List.length_cons] at ih; omega
    · split
      · omega
      · simp only [List.length_cons] at ih; omega

theorem npArgmin_min : ∀ l : List (Option ℝ), (∀ c ∈ l, c.isSome) →
    ∀ k, k < l.length → optKey l (npArgmin l) ≤ optKey l k
  | [], _, k, hk => by simp at hk
  | none :: t, hall, _, _ => by
    have := hall none (List.mem_cons_self _ _)
    simp at this
  | [some a], _, k, hk => by
    simp only [List.length_singleton] at hk
    interval_cases k
    · simp [npArgmin]
  | some a :: y :: ys, hall, k, hk => by
    have hall2 : ∀ c ∈ y :: ys, c.isSome := fun c hc => hall c (List.mem_cons_of_mem _ hc)
    have ih := npArgmin_min (y :: ys) hall2
    have hlt := npArgmin_lt_length (y :: ys) (by simp)
    have hg : ((y :: ys).getD (npArgmin (y :: ys)) none).isSome :=
      getD_isSome_of_all _ hall2 _ hlt
    rcases hb : (y :: ys).getD (npArgmin (y :: ys)) none with _ | b
    · rw [hb] at hg; simp at hg
    · have hkey : optKey (y :: ys) (npArgmin (y :: ys)) = (b : WithTop ℝ) := by
        rw [optKey, hb]
      have hcoe : ∀ k2, k2 < (y :: ys).length → (b : WithTop ℝ) ≤ optKey (y :: ys) k2 := by
        intro k2 hk2
        rw [← hkey]
        exact ih k2 hk2
      simp only [npArgmin, hb]
      by_cases hab : a ≤ b
      · rw [if_pos hab]
        match k, hk with
        | 0, _ => exact le_refl _
        | k2 + 1, hk2 =>
          rw [optKey_cons_zero_some, optKey_cons_succ]
          refine le_trans (WithTop.coe_le_coe.mpr hab) ?_
          exact hcoe k2 (by simpa using Nat.lt_of_succ_lt_succ hk2)
      · rw [if_neg hab]
        rw [optKey_cons_succ, hkey]
        match k, hk with
        | 0, _ =>
          rw [optKey_cons_zero_some]
          exact WithTop.coe_le_coe.mpr (le_of_not_le hab)
        | k2 + 1, hk2 =>
          rw [optKey_cons_succ]
          exact hcoe k2 (by simpa using Nat.lt_of_succ_lt_succ hk2)

theorem npArgsort_perm (l : List (Option ℝ)) :
    (npArgsort l).Perm (List.range l.length) := List.perm_insertionSort _ _

theorem npArgsort_nodup (l : List (Option ℝ)) : (npArgsort l).Nodup :=
  (npArgsort_perm l).nodup_iff.mpr (List.nodup_range l.length)

theorem npArgsort_mem (l : List (Option ℝ)) (i : ℕ) :
    i ∈ npArgsort l ↔ i < l.length := by
  rw [(npArgsort_perm l).mem_iff, List.mem_range]

theorem npArgsort_sorted (l : List (Option ℝ)) :
    (npArgsort l).Pairwise (fun i j => optKey l i ≤ optKey l j) := by
  haveI : IsTotal ℕ (fun i j => optKey l i ≤ optKey l j) := ⟨fun a b => le_total _ _⟩
  haveI : IsTrans ℕ (fun i j => optKey l i ≤ optKey l j) :=
    ⟨fun _ _ _ hab hbc => le_trans hab hbc⟩
  exact List.sorted_insertionSort _ _

theorem npArgsort_take_min (l : List (Option ℝ)) (n : ℕ) :
    ∀ i ∈ (npArgsort l).take n, ∀ j, j < l.length → j ∉ (npArgsort l).take n →
      optKey l i ≤ optKey l j := by
  intro i hi j hj hnj
  have hpw := npArgsort_sorted l
  rw [← List.take_append_drop n (npArgsort l), List.pairwise_append] at hpw
  have hjmem : j ∈ (npArgsort l).take n ++ (npArgsort l).drop n := by
    rw [List.take_append_drop n (npArgsort l)]
    exact (npArgsort_mem l j).mpr hj
  rcases List.mem_append.mp hjmem with hcase | hcase
  · exact absurd hcase hnj
  · exact hpw.2.2 i hi j hcase

theorem npArgsort_take_length (l : List (Option ℝ)) (n : ℕ) (hn : n ≤ l.length) :
    ((npArgsort l).take n).length = n := by
  rw [List.length_take, (npArgsort_perm l).length_eq, List.length_range]
  omega

theorem npArgsort_take_nodup (l : List (Option ℝ)) (n : ℕ) :
    ((npArgsort l).take n).Nodup :=
  (List.take_sublist n (npArgsort l)).nodup (npArgsort_nodup l)

theorem assignMany_length (eid : ℕ) (td sd : List (Option ℝ)) :
    ∀ (sel : List ℕ) (st : List (Option EventAssign)),
      (assignMany st eid td sd sel).length = st.length := by
  intro sel
  induction sel with
  | nil => intro st; rfl
  | cons a rest ih =>
    intro st
    show (assignMany (st.set a _) eid td sd rest).length = st.length
    rw [ih (st.set a _), List.length_set]

theorem assignMany_getD_not_mem (eid : ℕ) (td sd : List (Option ℝ)) :
    ∀ (sel : List ℕ) (st : List (Option EventAssign)) (i : ℕ), i ∉ sel →
      (assignMany st eid td sd sel).getD i none = st.getD i none := by
  intro sel
  induction sel with
  | nil => intro st i _; rfl
  | cons a rest ih =>
    intro st i hi
    have hne : a ≠ i := fun h => hi (h ▸ List.mem_cons_self a rest)
    have hni : i ∉ rest := fun h => hi (List.mem_cons_of_mem a h)
    show (assignMany (st.set a _) eid td sd rest).getD i none = st.getD i none
    rw [ih (st.set a _) i hni]
    rw [List.getD_eq_getElem?_getD, List.getD_eq_getElem?_getD,
      List.getElem?_set_ne hne]
    rw [← List.getD_eq_getElem?_getD]

theorem assignMany_getD_mem (eid : ℕ) (td sd : List (Option ℝ)) :
    ∀ (sel : List ℕ) (st : List (Option EventAssign)) (i : ℕ), sel.Nodup → i ∈ sel →
      i < st.length →
      (assignMany st eid td sd sel).getD i none =
        some ⟨eid, td.getD i none, sd.getD i none⟩ := by
  intro sel
  induction sel with
  | nil => intro st i _ hi; cases hi
  | cons a rest ih =>
    intro st i hnd hi hilen
    rcases List.mem_cons.mp hi with heq | hmem
    · subst heq
      have hnr : i ∉ rest := (List.nodup_cons.mp hnd).1
      show (assignMany (st.set i _) eid td sd rest).getD i none = _
      rw [assignMany_getD_not_mem eid td sd rest _ i hnr]
      rw [List.getD_eq_getElem?_getD, List.getElem?_set_eq_of_lt _ hilen]
      rfl
    · show (assignMany (st.set a _) eid td sd rest).getD i none = _
      exact ih (st.set a _) i (List.nodup_cons.mp hnd).2 hmem
        (by rw [List.length_set]; exact hilen)

theorem processReconEvent_eq_assignMany (timeNorm spatialNorm dSpace : ℝ)
    (sims : List SimPhoton) (st : List (Option EventAssign)) (e : ReconEvent) (eid : ℕ) :
    processReconEvent timeNorm spatialNorm dSpace sims st e eid =
      assignMany st eid (timeDiffs sims e) (spatialDiffsEff sims e)
        (writtenIndices timeNorm spatialNorm dSpace sims e) := by
  simp only [processReconEvent, writtenIndices]
  split_ifs <;> rfl

theorem writtenIndices_nodup (timeNorm spatialNorm dSpace : ℝ) (sims : List SimPhoton)
    (e : ReconEvent) : (writtenIndices timeNorm spatialNorm dSpace sims e).Nodup := by
  simp only [writtenIndices]
  split_ifs
  · exact List.nodup_singleton _
  · exact List.nodup_nil
  · exact List.nodup_nil
  · exact npArgsort_take_nodup _ _
  · exact List.nodup_nil

theorem writtenIndices_lt_length (timeNorm spatialNorm dSpace : ℝ) (sims : List SimPhoton)
    (e : ReconEvent) :
    ∀ i ∈ writtenIndices timeNorm spatialNorm dSpace sims e, i < sims.length := by
  intro i hi
  simp only [writtenIndices] at hi
  split_ifs at hi
  · rcases List.mem_singleton.mp hi with rfl
    have := npArgmin_lt_length (combinedDiffs timeNorm spatialNorm sims e)
      (by rw [← List.length_pos_iff_ne_nil, combinedDiffs_length]; omega)
    rwa [combinedDiffs_length] at this
  · cases hi
  · cases hi
  · have := (npArgsort_mem (combinedDiffs timeNorm spatialNorm sims e) i).mp
      (List.mem_of_mem_take hi)
    rwa [combinedDiffs_length] at this
  · cases hi

theorem sqrt_sum_sq (a b c : ℝ) (h : a ^ 2 + b ^ 2 = c ^ 2) (hc : 0 ≤ c) :
    Real.sqrt (a ^ 2 + b ^ 2) = c := by rw [h, Real.sqrt_sq hc]

/-- C1 (amended): in `merge_sim_and_recon_data`, events are matched to the
group's photons by the combined normalized time + spatial metric: an
`nPhotons = 1` event is assigned to the `np.argmin` candidate — which is the
metric-minimizing candidate provided no candidate's combined metric is `NaN`
(`np.argmin` returns the first `NaN` index otherwise); an `nPhotons = n ≠ 1`
event with at least `n` candidates selects exactly `n` distinct candidates
whose metrics (with `NaN` sorted last) are all ≤ every unselected candidate's
metric; and when all candidate `px`, all `py` or all times are `NaN` the
metric degenerates to the normalized time distance alone. -/
theorem C1_nearest_match_amended (timeNorm spatialNorm dSpace : ℝ)
    (sims : List SimPhoton) (e : ReconEvent) (st : List (Option EventAssign)) (eid : ℕ) :
    (e.nPhotons = 1 → 0 < sims.length →
      processReconEvent timeNorm spatialNorm dSpace sims st e eid =
        assignMany st eid (timeDiffs sims e) (spatialDiffsEff sims e)
          [npArgmin (combinedDiffs timeNorm spatialNorm sims e)] ∧
      npArgmin (combinedDiffs timeNorm spatialNorm sims e) < sims.length ∧
      ((∀ c ∈ combinedDiffs timeNorm spatialNorm sims e, c.isSome) →
        ∀ k, k < sims.length →
          optKey (combinedDiffs timeNorm spatialNorm sims e)
              (npArgmin (combinedDiffs timeNorm spatialNorm sims e)) ≤
            optKey (combinedDiffs timeNorm spatialNorm sims e) k)) ∧
    (e.nPhotons ≠ 1 → e.nPhotons ≤ sims.length →
      (closestIndicesN timeNorm spatialNorm sims e).length = e.nPhotons ∧
      (closestIndicesN timeNorm spatialNorm sims e).Nodup ∧
      (∀ i ∈ closestIndicesN timeNorm spatialNorm sims e, ∀ j, j < sims.length →
        j ∉ closestIndicesN timeNorm spatialNorm sims e →
        optKey (combinedDiffs timeNorm spatialNorm sims e) i ≤
          optKey (combinedDiffs timeNorm spatialNorm sims e) j)) ∧
    (allNanDegenerate sims = true →
      combinedDiffs timeNorm spatialNorm sims e =
        (timeDiffs sims e).map (Option.map (fun t => t / timeNorm))) := by
  refine ⟨?_, ?_, ?_⟩
  · intro h1 h2
    have hne : combinedDiffs timeNorm spatialNorm sims e ≠ [] := by
      rw [← List.length_pos_iff_ne_nil, combinedDiffs_length]
      exact h2
    have hlt := npArgmin_lt_length _ hne
    rw [combinedDiffs_length] at hlt
    refine ⟨?_, hlt, ?_⟩
    · rw [processReconEvent_eq_assignMany]
      congr 1
      simp only [writtenIndices]
      rw [if_pos h1, if_pos h2]
    · intro hall k hk
      exact npArgmin_min _ hall k (by rw [combinedDiffs_length]; exact hk)
  · intro h1 h2
    have h2len : e.nPhotons ≤ (combinedDiffs timeNorm spatialNorm sims e).length := by
      rw [combinedDiffs_length]; exact h2
    refine ⟨?_, npArgsort_take_nodup _ _, ?_⟩
    · rw [closestIndicesN, npArgsort_take_length _ _ h2len]
    · intro i hi j hj hnj
      rw [closestIndicesN] at hi hnj
      exact npArgsort_take_min _ _ i hi j
        (by rw [combinedDiffs_length]; exact hj) hnj
  · intro hdeg
    rw [combinedDiffs, if_pos hdeg]

/-- Counterexample to C1 as stated: with a candidate whose spatial position is
`NaN` listed first, `np.argmin` picks that candidate (index 0, metric `NaN`)
even though candidate 1 has the strictly smaller (finite) combined metric 5,
so the chosen photon is not the metric-minimizing one. -/
theorem C1_counterexample :
    npArgmin (combinedDiffs 1 1
      [⟨some 0, none, some 0⟩, ⟨some 0, some 3, some 4⟩] ⟨0, 0, 0, 1⟩) = 0 ∧
    combinedDiffs 1 1
      [⟨some 0, none, some 0⟩, ⟨some 0, some 3, some 4⟩] ⟨0, 0, 0, 1⟩ =
      [none, some 5] ∧
    optKey (combinedDiffs 1 1
      [⟨some 0, none, some 0⟩, ⟨some 0, some 3, some 4⟩] ⟨0, 0, 0, 1⟩) 1 <
      optKey (combinedDiffs 1 1
        [⟨some 0, none, some 0⟩, ⟨some 0, some 3, some 4⟩] ⟨0, 0, 0, 1⟩) 0 ∧
    processReconEvent 1 1 40
      [⟨some 0, none, some 0⟩, ⟨some 0, some 3, some 4⟩] [none, none] ⟨0, 0, 0, 1⟩ 1 =
      [some ⟨1, some 0, none⟩, none] := by
  have hs25 : Real.sqrt (25:ℝ) = 5 := by
    rw [show (25:ℝ) = 5 ^ 2 by norm_num]
    exact Real.sqrt_sq (by norm_num)
  have hdeg : allNanDegenerate
      [(⟨some 0, none, some 0⟩ : SimPhoton), ⟨some 0, some 3, some 4⟩] = false := rfl
  have hcd : combinedDiffs 1 1
      [⟨some 0, none, some 0⟩, ⟨some 0, some 3, some 4⟩] ⟨0, 0, 0, 1⟩ =
      [none, some 5] := by
    rw [combinedDiffs, hdeg]
    simp only [Bool.false_eq_true, if_false, timeDiffs, spatialDiffs, List.map_cons,
      List.map_nil, List.zipWith_cons_cons, List.zipWith_nil_right]
    norm_num [hs25]
  have htd : timeDiffs [(⟨some 0, none, some 0⟩ : SimPhoton), ⟨some 0, some 3, some 4⟩]
      ⟨0, 0, 0, 1⟩ = [some 0, some 0] := by
    simp only [timeDiffs, List.map_cons, List.map_nil, Option.map_some']
    norm_num
  have hsd : spatialDiffsEff [(⟨some 0, none, some 0⟩ : SimPhoton), ⟨some 0, some 3, some 4⟩]
      ⟨0, 0, 0, 1⟩ =
      [none, some (Real.sqrt (((3:ℝ) - 0) ^ 2 + ((4:ℝ) - 0) ^ 2))] := by
    rw [spatialDiffsEff, hdeg]
    simp only [Bool.false_eq_true, if_false, spatialDiffs, List.map_cons, List.map_nil]
  refine ⟨by rw [hcd]; rfl, hcd, ?_, ?_⟩
  · rw [hcd]
    show ((5:ℝ) : WithTop ℝ) < ⊤
    exact WithTop.coe_lt_top 5
  · rw [processReconEvent_eq_assignMany]
    have hwrit : writtenIndices 1 1 40
        [⟨some 0, none, some 0⟩, ⟨some 0, some 3, some 4⟩] ⟨0, 0, 0, 1⟩ = [0] := by
      simp only [writtenIndices, List.length_cons, List.length_nil]
      norm_num
      rw [hcd]
      rfl
    rw [hwrit, htd, hsd]
    simp only [assignMany, List.foldl_cons, List.foldl_nil, List.getD_cons_zero]
    rfl

/-- Witness for C1 at a concrete group with no `NaN` metric: the `argmin`
candidate's metric is minimal. -/
theorem C1_nearest_match_amended_witness :
    optKey (combinedDiffs 1 1
        [⟨some 0, some 0, some 0⟩, ⟨some 0, some 3, some 4⟩] ⟨0, 0, 0, 1⟩)
      (npArgmin (combinedDiffs 1 1
        [⟨some 0, some 0, some 0⟩, ⟨some 0, some 3, some 4⟩] ⟨0, 0, 0, 1⟩)) ≤
    optKey (combinedDiffs 1 1
      [⟨some 0, some 0, some 0⟩, ⟨some 0, some 3, some 4⟩] ⟨0, 0, 0, 1⟩) 1 := by
  have hall : ∀ c ∈ combinedDiffs 1 1
      [(⟨some 0, some 0, some 0⟩ : SimPhoton), ⟨some 0, some 3, some 4⟩] ⟨0, 0, 0, 1⟩,
      c.isSome := by
    rw [combinedDiffs, show allNanDegenerate
      [(⟨some 0, some 0, some 0⟩ : SimPhoton), ⟨some 0, some 3, some 4⟩] = false from rfl]
    simp [timeDiffs, spatialDiffs]
  exact ((C1_nearest_match_amended 1 1 40
    [⟨some 0, some 0, some 0⟩, ⟨some 0, some 3, some 4⟩] ⟨0, 0, 0, 1⟩
    [none, none] 1).1 rfl (by simp)).2.2 hall 1 (by simp)

/-- C2 (amended): the candidate pool of an event is the entire neutron group
for every reconstructed event — `sim_group` is computed once per group and
photons matched to earlier events are not removed.  The indices an event
writes are a function of the group and the event alone (the assignment state
`st` is arbitrary in the first conjunct); a selected row is overwritten with
the current event's data even when a previous event had already claimed it,
so a photon chosen by several events ends up with the last such event's
`event_id`; unselected rows are untouched. -/
theorem C2_candidate_pool_amended (timeNorm spatialNorm dSpace : ℝ)
    (sims : List SimPhoton) (e : ReconEvent) (eid : ℕ) (st : List (Option EventAssign)) :
    processReconEvent timeNorm spatialNorm dSpace sims st e eid =
      assignMany st eid (timeDiffs sims e) (spatialDiffsEff sims e)
        (writtenIndices timeNorm spatialNorm dSpace sims e) ∧
    (∀ i ∈ writtenIndices timeNorm spatialNorm dSpace sims e, i < st.length →
      (processReconEvent timeNorm spatialNorm dSpace sims st e eid).getD i none =
        some ⟨eid, (timeDiffs sims e).getD i none, (spatialDiffsEff sims e).getD i none⟩) ∧
    (∀ i, i ∉ writtenIndices timeNorm spatialNorm dSpace sims e →
      (processReconEvent timeNorm spatialNorm dSpace sims st e eid).getD i none =
        st.getD i none) := by
  refine ⟨processReconEvent_eq_assignMany timeNorm spatialNorm dSpace sims st e eid,
    ?_, ?_⟩
  · intro i hi hilen
    rw [processReconEvent_eq_assignMany]
    exact assignMany_getD_mem eid _ _ _ st i
      (writtenIndices_nodup timeNorm spatialNorm dSpace sims e) hi hilen
  · intro i hi
    rw [processReconEvent_eq_assignMany]
    exact assignMany_getD_not_mem eid _ _ _ st i hi

/-- Counterexample to C2 as stated: both reconstructed events of the group
select photon 0 — the photon matched to event 1 is still in event 2's
candidate pool and is re-assigned (overwritten) to event 2, while photon 1 is
never matched. -/
theorem C2_counterexample :
    processReconEvent 1 1 40
      [⟨some 0, some 0, some 0⟩, ⟨some 1000, some 0, some 5⟩] [none, none]
      ⟨0, 0, 0, 1⟩ 1 = [some ⟨1, some 0, some 0⟩, none] ∧
    processReconEvent 1 1 40
      [⟨some 0, some 0, some 0⟩, ⟨some 1000, some 0, some 5⟩]
      [some ⟨1, some 0, some 0⟩, none] ⟨0, 0, 0, 1⟩ 2 =
      [some ⟨2, some 0, some 0⟩, none] ∧
    matchNeutronGroup 1 1 40
      [⟨some 0, some 0, some 0⟩, ⟨some 1000, some 0, some 5⟩]
      [⟨0, 0, 0, 1⟩, ⟨0, 0, 0, 1⟩] = [some ⟨2, some 0, some 0⟩, none] := by
  have hs0 : Real.sqrt ((((0:ℝ)) - 0) ^ 2 + (((0:ℝ)) - 0) ^ 2) = 0 := by
    norm_num
  have hs25 : Real.sqrt (25:ℝ) = 5 := by
    rw [show (25:ℝ) = 5 ^ 2 by norm_num]
    exact Real.sqrt_sq (by norm_num)
  have hdeg : allNanDegenerate
      [(⟨some 0, some 0, some 0⟩ : SimPhoton), ⟨some 1000, some 0, some 5⟩] = false := rfl
  have hcd : combinedDiffs 1 1
      [⟨some 0, some 0, some 0⟩, ⟨some 1000, some 0, some 5⟩] ⟨0, 0, 0, 1⟩ =
      [some 0, some 1005] := by
    rw [combinedDiffs, hdeg]
    simp only [Bool.false_eq_true, if_false, timeDiffs, spatialDiffs, List.map_cons,
      List.map_nil, List.zipWith_cons_cons, List.zipWith_nil_right]
    norm_num [hs25]
    rw [abs_of_nonneg (by norm_num : (0:ℝ) ≤ 1 / 1000000)]
    norm_num
  have htd : timeDiffs [(⟨some 0, some 0, some 0⟩ : SimPhoton), ⟨some 1000, some 0, some 5⟩]
      ⟨0, 0, 0, 1⟩ = [some 0, some 1000] := by
    simp only [timeDiffs, List.map_cons, List.map_nil, Option.map_some']
    norm_num
    rw [abs_of_nonneg (by norm_num : (0:ℝ) ≤ 1 / 1000000)]
    norm_num
  have hsd : spatialDiffsEff
      [(⟨some 0, some 0, some 0⟩ : SimPhoton), ⟨some 1000, some 0, some 5⟩]
      ⟨0, 0, 0, 1⟩ = [some 0, some 5] := by
    rw [spatialDiffsEff, hdeg]
    simp only [Bool.false_eq_true, if_false, spatialDiffs, List.map_cons, List.map_nil]
    norm_num [hs25]
  have hmin : npArgmin [some (0:ℝ), some 1005] = 0 := by
    simp only [npArgmin, List.getD_cons_zero]
    rw [if_pos (by norm_num : (0:ℝ) ≤ 1005)]
  have hwrit : writtenIndices 1 1 40
      [⟨some 0, some 0, some 0⟩, ⟨some 1000, some 0, some 5⟩] ⟨0, 0, 0, 1⟩ = [0] := by
    simp only [writtenIndices, List.length_cons, List.length_nil]
    norm_num
    rw [hcd, hmin]
  have hstep : ∀ (st : List (Option EventAssign)) (eid : ℕ),
      processReconEvent 1 1 40
        [⟨some 0, some 0, some 0⟩, ⟨some 1000, some 0, some 5⟩] st ⟨0, 0, 0, 1⟩ eid =
        st.set 0 (some ⟨eid, some 0, some 0⟩) := by
    intro st eid
    rw [processReconEvent_eq_assignMany, hwrit, htd, hsd]
    simp only [assignMany, List.foldl_cons, List.foldl_nil, List.getD_cons_zero]
  refine ⟨hstep [none, none] 1, hstep [some ⟨1, some 0, some 0⟩, none] 2, ?_⟩
  have hsort : sortReconByTime [(⟨0, 0, 0, 1⟩ : ReconEvent), ⟨0, 0, 0, 1⟩] =
      [⟨0, 0, 0, 1⟩, ⟨0, 0, 0, 1⟩] := by
    simp only [sortReconByTime, List.insertionSort, List.orderedInsert]
    rw [if_pos (le_refl _)]
  rw [matchNeutronGroup, hsort]
  simp only [List.enum, List.enumFrom, List.foldl_cons, List.foldl_nil, List.length_cons,
    List.length_nil, List.replicate]
  rw [hstep _ 1]
  rw [show List.set [(none : Option EventAssign), none] 0 (some ⟨1, some 0, some 0⟩) =
    [some ⟨1, some 0, some 0⟩, none] from rfl]
  rw [hstep _ 2]
  rfl

/-- Witness for C2 at a one-photon group whose single photon is already
assigned to a previous event: the new event overwrites it. -/
theorem C2_candidate_pool_amended_witness :
    (processReconEvent 1 1 40 [⟨some 0, some 0, some 0⟩]
        [some ⟨5, none, none⟩] ⟨0, 0, 0, 1⟩ 7).getD 0 none =
      some ⟨7, (timeDiffs [⟨some 0, some 0, some 0⟩] ⟨0, 0, 0, 1⟩).getD 0 none,
        (spatialDiffsEff [⟨some 0, some 0, some 0⟩] ⟨0, 0, 0, 1⟩).getD 0 none⟩ := by
  have hwrit : writtenIndices 1 1 40 [⟨some 0, some 0, some 0⟩] ⟨0, 0, 0, 1⟩ = [0] := by
    simp only [writtenIndices, List.length_cons, List.length_nil]
    norm_num
    rfl
  refine (C2_candidate_pool_amended 1 1 40 [⟨some 0, some 0, some 0⟩]
    ⟨0, 0, 0, 1⟩ 7 [some ⟨5, none, none⟩]).2.1 0 ?_ (by simp)
  rw [hwrit]
  exact List.mem_singleton.mpr rfl

/-- C3 (amended): the centre-of-mass distance check exists only in the
`nPhotons != 1` branch: an event with `nPhotons ≠ 1` and enough candidates is
skipped (no group row receives its data) when the check applies and
`com_dist > dSpace_px`, but an `nPhotons = 1` event is always assigned to its
`argmin` candidate, however far away it is. -/
theorem C3_com_skip_amended (timeNorm spatialNorm dSpace : ℝ) (sims : List SimPhoton)
    (e : ReconEvent) (st : List (Option EventAssign)) (eid : ℕ) :
    (e.nPhotons ≠ 1 → e.nPhotons ≤ sims.length →
      skipEvent dSpace sims e (closestIndicesN timeNorm spatialNorm sims e) →
      processReconEvent timeNorm spatialNorm dSpace sims st e eid = st) ∧
    (e.nPhotons = 1 → 0 < sims.length →
      processReconEvent timeNorm spatialNorm dSpace sims st e eid =
        st.set (npArgmin (combinedDiffs timeNorm spatialNorm sims e))
          (some ⟨eid,
            (timeDiffs sims e).getD
              (npArgmin (combinedDiffs timeNorm spatialNorm sims e)) none,
            (spatialDiffsEff sims e).getD
              (npArgmin (combinedDiffs timeNorm spatialNorm sims e)) none⟩)) := by
  constructor
  · intro h1 h2 h3
    rw [closestIndicesN] at h3
    simp only [processReconEvent]
    rw [if_neg h1, if_pos h2, if_pos h3]
  · intro h1 h2
    simp only [processReconEvent]
    rw [if_pos h1, if_pos h2]
    simp only [assignMany, List.foldl_cons, List.foldl_nil]

/-- Counterexample to C3 as stated: an `nPhotons = 1` event whose single
closest photon (also the centre of mass of the chosen photons) is 500 px away
— far beyond `dSpace_px = 40` — is still assigned, not skipped. -/
theorem C3_counterexample :
    processReconEvent 1 1 40 [⟨some 0, some 0, some 0⟩] [none] ⟨0, 300, 400, 1⟩ 1 =
      [some ⟨1, some 0, some 500⟩] ∧
    comDist [⟨some 0, some 0, some 0⟩] ⟨0, 300, 400, 1⟩ [0] = 500 ∧
    (40:ℝ) < 500 := by
  have hs : Real.sqrt (((0:ℝ) - 300) ^ 2 + ((0:ℝ) - 400) ^ 2) = 500 := by
    rw [show ((0:ℝ) - 300) ^ 2 + ((0:ℝ) - 400) ^ 2 = 500 ^ 2 by norm_num]
    exact Real.sqrt_sq (by norm_num)
  have hdeg : allNanDegenerate [(⟨some 0, some 0, some 0⟩ : SimPhoton)] = false := rfl
  have htd : timeDiffs [(⟨some 0, some 0, some 0⟩ : SimPhoton)] ⟨0, 300, 400, 1⟩ =
      [some 0] := by
    simp only [timeDiffs, List.map_cons, List.map_nil, Option.map_some']
    norm_num
  have hsd : spatialDiffsEff [(⟨some 0, some 0, some 0⟩ : SimPhoton)] ⟨0, 300, 400, 1⟩ =
      [some 500] := by
    rw [spatialDiffsEff, hdeg]
    simp only [Bool.false_eq_true, if_false, spatialDiffs, List.map_cons, List.map_nil]
    rw [hs]
  refine ⟨?_, ?_, by norm_num⟩
  · have hwrit : writtenIndices 1 1 40 [⟨some 0, some 0, some 0⟩] ⟨0, 300, 400, 1⟩ =
        [0] := by
      simp only [writtenIndices, List.length_cons, List.length_nil]
      norm_num
      rfl
    rw [processReconEvent_eq_assignMany, hwrit, htd, hsd]
    simp only [assignMany, List.foldl_cons, List.foldl_nil, List.getD_cons_zero]
    rfl
  · rw [comDist]
    simp only [selectedPx, selectedPy, List.map_cons, List.map_nil, List.getD_cons_zero,
      nanMean, List.filterMap_cons, List.filterMap_nil, id]
    simp only [List.sum_cons, List.sum_nil, List.length_cons, List.length_nil]
    rw [show ((0:ℝ) + 0) / (1:ℕ) = 0 by norm_num]
    exact hs

/-- Witness for C3 at a concrete two-photon event whose centre of mass is
500 px from the event: the event is skipped and the state is unchanged. -/
theorem C3_com_skip_amended_witness :
    processReconEvent 1 1 40 [⟨some 0, some 0, some 0⟩, ⟨some 0, some 0, some 0⟩]
      [none, none] ⟨0, 300, 400, 2⟩ 1 = [none, none] := by
  have hs : Real.sqrt (((0:ℝ) - 300) ^ 2 + ((0:ℝ) - 400) ^ 2) = 500 := by
    rw [show ((0:ℝ) - 300) ^ 2 + ((0:ℝ) - 400) ^ 2 = 500 ^ 2 by norm_num]
    exact Real.sqrt_sq (by norm_num)
  have hdeg : allNanDegenerate
      [(⟨some 0, some 0, some 0⟩ : SimPhoton), ⟨some 0, some 0, some 0⟩] = false := rfl
  have hcd : combinedDiffs 1 1
      [⟨some 0, some 0, some 0⟩, ⟨some 0, some 0, some 0⟩] ⟨0, 300, 400, 2⟩ =
      [some 500, some 500] := by
    rw [combinedDiffs, hdeg]
    simp only [Bool.false_eq_true, if_false, timeDiffs, spatialDiffs, List.map_cons,
      List.map_nil, List.zipWith_cons_cons, List.zipWith_nil_right]
    rw [hs]
    norm_num
  have hsel : closestIndicesN 1 1
      [⟨some 0, some 0, some 0⟩, ⟨some 0, some 0, some 0⟩] ⟨0, 300, 400, 2⟩ = [0, 1] := by
    rw [closestIndicesN, hcd]
    show (npArgsort [some (500:ℝ), some 500]).take 2 = [0, 1]
    have hr2 : List.range ([some (500:ℝ), some 500].length) = [0, 1] := rfl
    rw [npArgsort, hr2]
    simp only [List.insertionSort, List.orderedInsert]
    rw [if_pos (le_of_eq (show optKey [some (500:ℝ), some 500] 0 =
      optKey [some (500:ℝ), some 500] 1 from rfl))]
    rfl
  have hskip : skipEvent 40 [(⟨some 0, some 0, some 0⟩ : SimPhoton), ⟨some 0, some 0, some 0⟩]
      ⟨0, 300, 400, 2⟩ [0, 1] := by
    constructor
    · simp [selectedPx, selectedPy]
    · rw [comDist]
      simp only [selectedPx, selectedPy, List.map_cons, List.map_nil, List.getD_cons_zero,
        List.getD_cons_succ, nanMean, List.filterMap_cons, List.filterMap_nil, id]
      simp only [List.sum_cons, List.sum_nil, List.length_cons, List.length_nil]
      rw [show ((0:ℝ) + (0 + 0)) / (2:ℕ) = 0 by norm_num]
      rw [hs]
      norm_num
  refine (C3_com_skip_amended 1 1 40
    [⟨some 0, some 0, some 0⟩, ⟨some 0, some 0, some 0⟩] ⟨0, 300, 400, 2⟩
    [none, none] 1).1 (by norm_num) (by simp) ?_
  rw [hsel]
  exact hskip

end G4LumaCam
